import Mathlib

/-!
Verification of ticketron's LLM-response normalization and field-projection core.

The Go sources embedded here:
* `internal/llm/parser.go` — `jsonRegex`, `ParseLLMResponse`, `LLMResponse`.
* the search command — `searchRunE` (field parsing, JSON/YAML/TSV rendering),
  `getValueByPath`, `getValueRecursive`, `extractFields`.
* `internal/mcpclient` types — `Issue`, `IssueFields`, `Status`, `IssueType`.

Strings are modelled as `List Char`; the repository's inputs are ASCII, for which
Go's byte strings and rune sequences coincide with character lists.
-/

/-- The backtick character, the markdown fence marker of the Go pattern (`\x60`). -/
def btick : Char := Char.ofNat 96

/-- The opening curly brace character. -/
def lbrace : Char := Char.ofNat 123

/-- The closing curly brace character. -/
def rbrace : Char := Char.ofNat 125

/-- Character class of the whitespace escape in Go's regexp syntax:
space, tab, newline, carriage return and form feed (vertical tab is not included). -/
def wsRe (c : Char) : Bool :=
  c = ' ' || c = '\t' || c = '\n' || c = '\r' || c = '\x0c'

/-- Whitespace recognized by Go's `strings.TrimSpace` (via `unicode.IsSpace`)
restricted to the Latin-1 range: space, tab, newline, vertical tab, form feed,
carriage return, next line and no-break space. -/
def goSpace (c : Char) : Bool :=
  c = ' ' || c = '\t' || c = '\n' || c = '\x0b' || c = '\x0c' || c = '\r' ||
    c = '\x85' || c = '\xa0'

/-- Go `strings.TrimSpace`: drop `goSpace` characters from both ends. -/
def goTrimSpace (l : List Char) : List Char :=
  ((l.dropWhile goSpace).reverse.dropWhile goSpace).reverse

/-! ### The fence regex

`parser.go` line 36:

  `jsonRegex = regexp.MustCompile("(?s)\x60{3}(?:[jJ][sS][oO][nN])?\s*(\{.*\})\s*\x60{3}")`

`FindStringSubmatch` uses Go's leftmost-first (Perl-like) semantics: the match
starts at the earliest position where any match exists, and at that position
greedy subpatterns prefer the longest alternative, backtracking on failure.
For this particular pattern every backtracking choice except the end of the
greedy `.*` is forced:

* `\s*` before `\{` must consume the entire whitespace run, since stopping
  early leaves a whitespace character where `{` is required;
* the optional `json` tag must be consumed when present, since otherwise the
  letter `j` would have to match `\s*\{`;
* `\s*` before the closing fence must likewise consume the entire run.

The one real choice, the end of `.*`, is resolved greedily: the capture ends at
the last `}` that is followed by optional whitespace and three backticks.
`matchAt` below implements exactly this decision procedure, and `findFence`
iterates it over all start positions, leftmost first. -/

/-- Strip an exact three-backtick fence from the front of the list (`\x60{3}`). -/
def stripFence : List Char → Option (List Char)
  | a :: b :: c :: rest =>
    if a = btick ∧ b = btick ∧ c = btick then some rest else none
  | _ => none

/-- Case-insensitive match of the four characters of the `json` language tag. -/
def jsonCi (a b c d : Char) : Bool :=
  (a = 'j' || a = 'J') && (b = 's' || b = 'S') && (c = 'o' || c = 'O') &&
    (d = 'n' || d = 'N')

/-- Consume the optional case-insensitive `json` tag (`(?:[jJ][sS][oO][nN])?`). -/
def stripTag : List Char → List Char
  | a :: b :: c :: d :: rest =>
    if jsonCi a b c d then rest else a :: b :: c :: d :: rest
  | l => l

/-- Consume a maximal run of regex whitespace (`\s*`). -/
def dropWsRe (l : List Char) : List Char := l.dropWhile wsRe

/-- Holds when the text begins, after optional whitespace, with a closing fence:
the trailing `\s*\x60{3}` of the pattern. -/
def closeOk (t : List Char) : Bool := (stripFence (dropWsRe t)).isSome

/-- Index of the last `}` in the list that is followed by optional whitespace
and a closing fence — where the greedy `.*` of the capture group ends. -/
def lastClose : List Char → Option Nat
  | [] => none
  | c :: rest =>
    match lastClose rest with
    | some n => some (n + 1)
    | none => if c = rbrace ∧ closeOk rest then some 0 else none

/-- Attempt the fence pattern at the head of the list, returning the capture
group (the brace-delimited blob) on success. -/
def matchAt (l : List Char) : Option (List Char) :=
  match stripFence l with
  | none => none
  | some r1 =>
    match dropWsRe (stripTag r1) with
    | c :: body =>
      if c = lbrace then
        (lastClose body).map (fun n => lbrace :: body.take (n + 1))
      else none
    | [] => none

/-- Go `jsonRegex.FindStringSubmatch`: try the pattern at every position,
leftmost first, and return the capture group of the first success. -/
def findFence : List Char → Option (List Char)
  | [] => none
  | c :: rest =>
    match matchAt (c :: rest) with
    | some cap => some cap
    | none => findFence rest

/-! ### ParseLLMResponse (`internal/llm/parser.go` lines 38-87) -/

/-- Candidate selection of `ParseLLMResponse` (lines 42-60): the regex capture
when the fence pattern matches, otherwise the trimmed input provided it starts
with `{` and ends with `}`; `none` is the `ErrLLMResponseJSONFind` outcome. -/
def normalizeLLM (raw : List Char) : Option (List Char) :=
  match findFence raw with
  | some cap => some cap
  | none =>
    let t := goTrimSpace raw
    if t.head? = some lbrace ∧ t.getLast? = some rbrace then some t else none

/-- The final JSON candidate string: the selected candidate trimmed once more
(line 63 of `parser.go`). -/
def finalCandidate (raw : List Char) : Option (List Char) :=
  (normalizeLLM raw).map goTrimSpace

/-- The `LLMResponse` struct of `parser.go`: summary, description and
project-name suggestion, with the JSON tags `summary`, `description` and
`project_name_suggestion`. -/
structure LLMResponse where
  summary : List Char
  description : List Char
  projectNameSuggestion : List Char
deriving DecidableEq, Repr

/-- The zero value `LLMResponse{}` of the Go struct. -/
def zeroLLMResponse : LLMResponse := ⟨[], [], []⟩

/-! ### A model of `encoding/json.Unmarshal` into `LLMResponse`

`Unmarshal` is standard-library code, modelled here for the fragment the
repository exercises: a single JSON object whose members are string literals or
`null`, with JSON whitespace, escape sequences `\" \\ \/ \n \t \r`, unknown
keys ignored, case-insensitive key matching, later duplicates overwriting
earlier ones, and no trailing data after the closing brace.  Inputs outside
this fragment are reported as unmarshal failures; the theorems below never
depend on the behaviour of `Unmarshal` outside the fragment. -/

/-- JSON whitespace: space, tab, newline, carriage return. -/
def jsonWs (c : Char) : Bool := c = ' ' || c = '\t' || c = '\n' || c = '\r'

/-- Skip JSON whitespace. -/
def skipWs (l : List Char) : List Char := l.dropWhile jsonWs

/-- Parse the body of a JSON string literal after its opening quote, returning
the decoded content and the remainder after the closing quote. -/
def parseJString : List Char → Option (List Char × List Char)
  | [] => none
  | '\\' :: e :: rest =>
    let dec : Option Char :=
      if e = '"' then some '"'
      else if e = '\\' then some '\\'
      else if e = '/' then some '/'
      else if e = 'n' then some '\n'
      else if e = 't' then some '\t'
      else if e = 'r' then some '\r'
      else none
    match dec with
    | none => none
    | some d =>
      match parseJString rest with
      | none => none
      | some (s, r) => some (d :: s, r)
  | '"' :: rest => some ([], rest)
  | c :: rest =>
    match parseJString rest with
    | none => none
    | some (s, r) => some (c :: s, r)

/-- Parse one JSON value of the modelled fragment: a string literal or `null`.
Returns the decoded string (or `none` for `null`) and the remainder. -/
def parseJValue : List Char → Option (Option (List Char) × List Char)
  | '"' :: rest => (parseJString rest).map (fun p => (some p.1, p.2))
  | 'n' :: 'u' :: 'l' :: 'l' :: rest => some (none, rest)
  | _ => none

/-- ASCII case-insensitive equality of two characters, Go's `EqualFold`
restricted to ASCII. -/
def chFold (a b : Char) : Bool := a.toLower = b.toLower

/-- ASCII case-insensitive equality of two character lists. -/
def eqFold : List Char → List Char → Bool
  | [], [] => true
  | a :: as, b :: bs => chFold a b && eqFold as bs
  | _, _ => false

/-- Assign a decoded member to the matching struct field, the way `Unmarshal`
fills `LLMResponse`: keys match the JSON tags case-insensitively, `null`
leaves the field untouched, unknown keys are ignored. -/
def setKey (r : LLMResponse) (k : List Char) (v : Option (List Char)) : LLMResponse :=
  match v with
  | none => r
  | some s =>
    if eqFold k "summary".toList then { r with summary := s }
    else if eqFold k "description".toList then { r with description := s }
    else if eqFold k "project_name_suggestion".toList then { r with projectNameSuggestion := s }
    else r

/-- Parse the members of a JSON object after its opening brace (first member
onward), threading the struct being filled; fuel bounds the recursion. -/
def parseMembers : Nat → LLMResponse → List Char → Option (LLMResponse × List Char)
  | 0, _, _ => none
  | fuel + 1, r, l =>
    match skipWs l with
    | '"' :: rest =>
      match parseJString rest with
      | none => none
      | some (k, rest2) =>
        match skipWs rest2 with
        | ':' :: rest3 =>
          match parseJValue (skipWs rest3) with
          | none => none
          | some (v, rest4) =>
            match skipWs rest4 with
            | ',' :: rest5 => parseMembers fuel (setKey r k v) rest5
            | c :: rest5 =>
              if c = rbrace then some (setKey r k v, rest5) else none
            | [] => none
        | _ => none
    | _ => none

/-- Model of `json.Unmarshal(candidate, &response)` for `LLMResponse`:
`none` is an unmarshal error. -/
def jsonUnmarshalLLM (l : List Char) : Option LLMResponse :=
  match skipWs l with
  | c :: rest =>
    if c = lbrace then
      match skipWs rest with
      | d :: rest2 =>
        if d = rbrace then
          if skipWs rest2 = [] then some zeroLLMResponse else none
        else
          match parseMembers (rest.length + 1) zeroLLMResponse rest with
          | some (r, rest3) => if skipWs rest3 = [] then some r else none
          | none => none
      | [] => none
    else none
  | [] => none

/-- The three error outcomes of `ParseLLMResponse`: the `ErrLLMResponseJSONFind`,
`ErrLLMResponseJSONUnmarshal` and `ErrLLMResponseMissingField` sentinels (the
missing-field error carries the field name appended to its message). -/
inductive LLMErr where
  | jsonFind : LLMErr
  | jsonUnmarshal : LLMErr
  | missingField : List Char → LLMErr
deriving DecidableEq, Repr

/-- Model of `ParseLLMResponse` (lines 38-87 of `parser.go`): locate the JSON candidate,
trim it, unmarshal it, then validate `summary` and `project_name_suggestion`
in that order.  The Go function returns a `(LLMResponse, error)` pair: the zero
struct on find/unmarshal failures, the parsed struct alongside the error on
missing-field failures. -/
def parseLLMResponse (raw : List Char) : LLMResponse × Option LLMErr :=
  match normalizeLLM raw with
  | none => (zeroLLMResponse, some .jsonFind)
  | some cand =>
    match jsonUnmarshalLLM (goTrimSpace cand) with
    | none => (zeroLLMResponse, some .jsonUnmarshal)
    | some response =>
      if response.summary = [] then
        (response, some (.missingField "summary".toList))
      else if response.projectNameSuggestion = [] then
        (response, some (.missingField "project_name_suggestion".toList))
      else (response, none)

example : finalCandidate "\x60\x60\x60json\n\x7b\"a\": \"1\"\x7d\n\x60\x60\x60".toList =
    some "\x7b\"a\": \"1\"\x7d".toList := by decide

example : parseLLMResponse "\x7b\"summary\": \"S\", \"project_name_suggestion\": \"P\"\x7d".toList =
    (⟨"S".toList, [], "P".toList⟩, none) := by decide

/-! ### The reflection value model

The search command's `getValueByPath`/`getValueRecursive` traverse arbitrary Go
values through the `reflect` package.  `GoValue` models the kinds those
functions distinguish: strings, integers, booleans, structs (with per-field
declared name, raw `json` struct tag and exportedness), string-keyed maps,
pointers and interfaces (each possibly nil).  `GoField.jsonTag` holds what
`StructField.Tag.Get("json")` returns, e.g. `summary`, `description,omitempty`,
`-`, or the empty string when the field has no json tag. -/

mutual
inductive GoValue where
  | vstr : List Char → GoValue
  | vint : Int → GoValue
  | vbool : Bool → GoValue
  | vstruct : List GoField → GoValue
  | vmap : List (List Char × GoValue) → GoValue
  | vptr : Option GoValue → GoValue
  | viface : Option GoValue → GoValue

inductive GoField where
  | mk : List Char → List Char → Bool → GoValue → GoField
end

/-- Declared name of a struct field. -/
def GoField.name : GoField → List Char
  | .mk n _ _ _ => n

/-- Raw `json` struct tag of a field. -/
def GoField.jsonTag : GoField → List Char
  | .mk _ t _ _ => t

/-- Whether `reflect` can interface the field's value (the field is exported). -/
def GoField.exported : GoField → Bool
  | .mk _ _ e _ => e

/-- The field's value. -/
def GoField.value : GoField → GoValue
  | .mk _ _ _ v => v

/-- Head of `strings.Split(jsonTag, ",")`: the tag text before the first comma,
the external key name the tag declares. -/
def tagHead (tag : List Char) : List Char := tag.takeWhile (· ≠ ',')

/-- The excluded-from-serialization tag value, the literal `-`. -/
def dashTag : List Char := ['-']

/-- The pointer/interface dereference loop at the top of `getValueRecursive`
(lines 286-294): repeatedly take `Elem` while the kind is pointer or interface,
returning not-found when a nil reference is encountered. -/
def derefChain : GoValue → Option GoValue
  | .vptr none => none
  | .vptr (some v) => derefChain v
  | .viface none => none
  | .viface (some v) => derefChain v
  | v => some v

/-- Struct lookup, phase 1 (lines 302-314): `FieldByNameFunc` with a
case-insensitive name comparison.  The reflect function yields a valid value
only when exactly one field name matches; the code then requires the field to
be interfaceable and its json tag to differ from `-`. -/
def fieldByName (fields : List GoField) (part : List Char) : Option GoField :=
  match fields.filter (fun f => eqFold f.name part) with
  | [f] =>
    if f.exported then
      if f.jsonTag ≠ dashTag then some f else none
    else none
  | _ => none

/-- Struct lookup, phase 2 (lines 317-335): scan the fields in declaration
order for one whose json tag's key name equals the segment exactly, whose raw
tag is not `-`, and whose value is interfaceable; the first hit wins. -/
def fieldByTag (fields : List GoField) (part : List Char) : Option GoField :=
  fields.find? (fun f => tagHead f.jsonTag = part && f.jsonTag ≠ dashTag && f.exported)

/-- One struct resolution step: name match first, tag match only if the name
phase found nothing. -/
def structResolve (fields : List GoField) (part : List Char) : Option GoField :=
  match fieldByName fields part with
  | some f => some f
  | none => fieldByTag fields part

/-- Map lookup (lines 343-358) for a string-keyed map: exact key first, then a
case-insensitive scan.  Go iterates the map in unspecified order; the model
scans entries in list order, which is faithful whenever no two distinct keys
are case-insensitively equal (true of every map this repository builds). -/
def mapResolve (entries : List (List Char × GoValue)) (part : List Char) : Option GoValue :=
  match entries.find? (fun e => e.1 = part) with
  | some e => some e.2
  | none =>
    match entries.find? (fun e => eqFold e.1 part) with
    | some e => some e.2
    | none => none

/-- Model of `getValueRecursive` (lines 278-368): on an exhausted path return
the current value unconditionally; otherwise dereference pointer/interface
chains, then resolve the next segment against a struct or string-keyed map;
any other kind is not-found.  `none` stands for the `(reflect.Value{}, false)`
result. -/
def getValueRecursive (current : GoValue) : List (List Char) → Option GoValue
  | [] => some current
  | part :: rest =>
    match derefChain current with
    | none => none
    | some cur =>
      match cur with
      | .vstruct fields =>
        match structResolve fields part with
        | some f => getValueRecursive f.value rest
        | none => none
      | .vmap entries =>
        match mapResolve entries part with
        | some v => getValueRecursive v rest
        | none => none
      | _ => none

/-- Go `strings.Split(path, ".")`: split on dots, keeping empty segments; the
result is always non-empty. -/
def splitDot : List Char → List (List Char)
  | [] => [[]]
  | c :: rest =>
    match splitDot rest with
    | s :: ss => if c = '.' then [] :: s :: ss else (c :: s) :: ss
    | [] => [[c]]

/-- Model of `getValueByPath` (lines 268-275): split the path and traverse.
`some v` is the `(val.Interface(), true)` result, `none` is `(nil, false)`;
every value the traversal can return is interfaceable, so the extra
`IsValid`/`CanInterface` guards never fire. -/
def getValueByPath (data : GoValue) (path : List Char) : Option GoValue :=
  getValueRecursive data (splitDot path)

/-- Whether the interface value returned for a found result is the nil
interface: only a found nil interface compares equal to nil in
`value != nil`; a found nil pointer is a typed non-nil interface. -/
def ifaceIsNil : GoValue → Bool
  | .viface none => true
  | _ => false

example :
    getValueByPath (.vstruct [.mk "Key".toList "key".toList true (.vstr "v1".toList)])
      "key".toList = some (.vstr "v1".toList) := rfl

example :
    getValueByPath (.vstruct [.mk "SkipMe".toList dashTag true (.vstr "s".toList)])
      "SkipMe".toList = none := rfl

example :
    getValueByPath (.vstruct [.mk "Nested".toList "nested".toList true (.vptr none)])
      "Nested.Value".toList = none := rfl

/-! ### The mcpclient record types (`internal/mcpclient/types.go`) -/

/-- The `Status` struct: the status field of a Jira issue. -/
structure Status where
  name : List Char
deriving DecidableEq, Repr

/-- The `IssueType` struct: the issue-type field of a Jira issue. -/
structure IssueType where
  name : List Char
deriving DecidableEq, Repr

/-- The `IssueFields` struct: summary, status, issue type and description. -/
structure IssueFields where
  summary : List Char
  status : Status
  issuetype : IssueType
  description : List Char
deriving DecidableEq, Repr

/-- The `Issue` struct: key, id, self link and nested fields. -/
structure Issue where
  key : List Char
  id : List Char
  self : List Char
  fields : IssueFields
deriving DecidableEq, Repr

/-- Reflection view of a `Status` value: one exported field `Name` with json
tag `name`. -/
def Status.toGoValue (s : Status) : GoValue :=
  .vstruct [.mk "Name".toList "name".toList true (.vstr s.name)]

/-- Reflection view of an `IssueType` value. -/
def IssueType.toGoValue (t : IssueType) : GoValue :=
  .vstruct [.mk "Name".toList "name".toList true (.vstr t.name)]

/-- Reflection view of an `IssueFields` value, fields in declaration order
with their json tags (`description` carries the `omitempty` option). -/
def IssueFields.toGoValue (f : IssueFields) : GoValue :=
  .vstruct
    [.mk "Summary".toList "summary".toList true (.vstr f.summary),
     .mk "Status".toList "status".toList true f.status.toGoValue,
     .mk "IssueType".toList "issuetype".toList true f.issuetype.toGoValue,
     .mk "Description".toList "description,omitempty".toList true (.vstr f.description)]

/-- Reflection view of an `Issue` value. -/
def Issue.toGoValue (i : Issue) : GoValue :=
  .vstruct
    [.mk "Key".toList "key".toList true (.vstr i.key),
     .mk "ID".toList "id".toList true (.vstr i.id),
     .mk "Self".toList "self".toList true (.vstr i.self),
     .mk "Fields".toList "fields".toList true i.fields.toGoValue]

/-- Join character lists with a separator character between them. -/
def joinSep (sep : Char) : List (List Char) → List Char
  | [] => []
  | [x] => x
  | x :: y :: ys => x ++ sep :: joinSep sep (y :: ys)

/-! ### Default text form of a value

`fmt.Sprintf("%v", value)`: strings print as their content, integers in
decimal, booleans as `true`/`false`, structs as the brace-wrapped
space-separated values of their fields, maps in `map[k:v ...]` form, non-nil
pointers with an `&` prefix (reference pointers in this repository point to
structs) and nil pointers or interfaces as `<nil>`. -/

mutual
def fmtSprintV : GoValue → List Char
  | .vstr s => s
  | .vint n => (toString n).toList
  | .vbool b => (toString b).toList
  | .vstruct fields => lbrace :: joinSep ' ' (fmtFields fields) ++ [rbrace]
  | .vmap entries => "map[".toList ++ joinSep ' ' (fmtEntries entries) ++ "]".toList
  | .vptr none => "<nil>".toList
  | .vptr (some v) => '&' :: fmtSprintV v
  | .viface none => "<nil>".toList
  | .viface (some v) => fmtSprintV v

def fmtFields : List GoField → List (List Char)
  | [] => []
  | .mk _ _ _ v :: fs => fmtSprintV v :: fmtFields fs

def fmtEntries : List (List Char × GoValue) → List (List Char)
  | [] => []
  | (k, v) :: es => (k ++ ':' :: fmtSprintV v) :: fmtEntries es
end

/-! ### The search command's output helpers (`searchRunE` and friends) -/

/-- Split a character list on a separator, Go `strings.Split` style: empty
segments are kept and the result is never empty. -/
def splitSep (sep : Char) : List Char → List (List Char)
  | [] => [[]]
  | c :: rest =>
    match splitSep sep rest with
    | s :: ss => if c = sep then [] :: s :: ss else (c :: s) :: ss
    | [] => [[c]]

/-- Field-list parsing of `searchRunE` (lines 144-158): split the flag value on
commas, trim each piece, and drop the blanks. -/
def parseOutputFields (s : List Char) : List (List Char) :=
  ((splitSep ',' s).map goTrimSpace).filter (· ≠ [])

/-- One Go map write `m[k] = v`: overwrite the binding if the key is present,
otherwise add it.  Go maps are unordered; the list order here is bookkeeping
of the model and no encoder below reads it. -/
def mapSet (m : List (List Char × Option GoValue)) (k : List Char) (v : Option GoValue) :
    List (List Char × Option GoValue) :=
  if m.any (fun e => e.1 = k) then m.map (fun e => if e.1 = k then (k, v) else e)
  else m ++ [(k, v)]

/-- Model of `extractFields` (lines 371-381): for each requested path store the
resolved value, or an explicit null marker (`none`) when the path is not
found, into a `map[string]interface\x7b\x7d`. -/
def extractFields (issue : Issue) (fields : List (List Char)) :
    List (List Char × Option GoValue) :=
  fields.foldl (fun m p => mapSet m p (getValueByPath issue.toGoValue p)) []

/-- Byte-wise lexicographic order on strings, the order of Go `sort.Strings`. -/
def lexLe : List Char → List Char → Bool
  | [], _ => true
  | _ :: _, [] => false
  | a :: as, b :: bs => if a = b then lexLe as bs else decide (a < b)

/-- Insert into a `lexLe`-sorted list. -/
def sortedInsert (x : List Char) : List (List Char) → List (List Char)
  | [] => [x]
  | y :: ys => if lexLe x y then x :: y :: ys else y :: sortedInsert x ys

/-- Insertion sort by `lexLe`: the output order of Go `sort.Strings`. -/
def sortStrings (l : List (List Char)) : List (List Char) := l.foldr sortedInsert []

/-- Key order in which `encoding/json` serializes a Go map: the documented
behaviour is that map keys are sorted (byte-wise, via `sort.Strings`),
regardless of any insertion history. -/
def goJsonMapKeys (m : List (List Char × Option GoValue)) : List (List Char) :=
  sortStrings (m.map Prod.fst)

/-- Cell sanitization of the tsv branch (lines 238-240): every tab, newline and
carriage return becomes a single space. -/
def sanitizeCell (s : List Char) : List Char :=
  s.map (fun c => if c = '\t' || c = '\n' || c = '\r' then ' ' else c)

/-- One tsv cell (lines 233-243): the sanitized default text form when the path
resolved to a non-nil value, otherwise the empty string. -/
def tsvCell (issue : Issue) (path : List Char) : List Char :=
  match getValueByPath issue.toGoValue path with
  | some v => if ifaceIsNil v then [] else sanitizeCell (fmtSprintV v)
  | none => []

/-- Join cells with tabs (`strings.Join(values, "\t")`). -/
def joinTab (cells : List (List Char)) : List Char := joinSep '\t' cells

/-- One tsv data row (lines 230-246). -/
def tsvRow (issue : Issue) (fs : List (List Char)) : List Char :=
  joinTab (fs.map (tsvCell issue))

/-- The fixed default tsv field set (line 211). -/
def defaultTsvFields : List (List Char) :=
  ["key".toList, "fields.summary".toList, "fields.status.name".toList,
   "fields.issuetype.name".toList]

/-- Field selection of the tsv branch (lines 209-226): the parsed flag fields
when the flag was given and parsed to something non-empty, the default set
otherwise. -/
def tsvSelectFields (outputFieldsStr : List Char) : List (List Char) :=
  if outputFieldsStr = [] then defaultTsvFields
  else
    match parseOutputFields outputFieldsStr with
    | [] => defaultTsvFields
    | f :: fs => f :: fs

/-- The tsv branch of `searchRunE` (lines 203-247) as the list of lines it
prints: the sentinel line on an empty collection, otherwise a header row
followed by one data row per issue. -/
def tsvLines (issues : List Issue) (outputFieldsStr : List Char) : List (List Char) :=
  match issues with
  | [] => ["No issues found.".toList]
  | _ :: _ =>
    let fs := tsvSelectFields outputFieldsStr
    joinTab fs :: issues.map (fun i => tsvRow i fs)

/-- Number of tab-separated cells in a rendered line. -/
def countCells (line : List Char) : Nat := line.count '\t' + 1

/-- A sample issue mirroring the repository's own search-test fixture. -/
def issueOne : Issue :=
  ⟨"TEST-1".toList, "10001".toList, "self1".toList,
   ⟨"Found issue 1".toList, ⟨"Open".toList⟩, ⟨"Bug".toList⟩,
    "First test issue.".toList⟩⟩

example : tsvCell issueOne "fields.status.name".toList = "Open".toList := rfl

example : tsvCell issueOne "nonExistentField".toList = [] := rfl

example :
    tsvLines [] [] = ["No issues found.".toList] := rfl

/-! ## Claim theorems -/

/-- Claim C4, counterexample: the claim says a path whose last segment lands on
an absent pointer reference resolves to found = false, but `getValueRecursive`
returns the current value unconditionally once the path is exhausted — the nil
check of the dereference loop runs only before a further segment.  Resolving
`Nested` against a record whose `Nested` pointer is nil yields the found result
`some (vptr none)` (found = true with a typed nil value), not `none`. -/
theorem c4_counterexample :
    getValueByPath (.vstruct [.mk "Nested".toList "nested".toList true (.vptr none)])
        "Nested".toList = some (.vptr none) ∧
    (getValueByPath (.vstruct [.mk "Nested".toList "nested".toList true (.vptr none)])
        "Nested".toList).isSome = true :=
  ⟨rfl, rfl⟩

/-- Claim C4, amended: when path resolution exhausts all segments,
`getValueByPath` reports found = true unconditionally, even when the final
value is an absent optional/pointer reference; only a path whose intermediate
reference is absent (nil encountered while segments remain) resolves to
found = false. -/
theorem c4_amended :
    (∀ v : GoValue, getValueRecursive v [] = some v) ∧
    (∀ (p : List Char) (rest : List (List Char)),
        getValueRecursive (.vptr none) (p :: rest) = none) ∧
    getValueByPath (.vstruct [.mk "Nested".toList "nested".toList true (.vptr none)])
        "Nested.Value".toList = none :=
  ⟨fun _ => rfl, fun _ _ => rfl, rfl⟩

/-- Claim C6: after a successful parse, required-field validation checks
`summary` before `project_name_suggestion`; whenever the unmarshalled response
has an empty or absent summary — regardless of the other field — the result is
the missing-field error naming `summary`, alongside the parsed record. -/
theorem c6_summary_checked_first (raw cand : List Char) (r : LLMResponse)
    (hn : normalizeLLM raw = some cand)
    (hu : jsonUnmarshalLLM (goTrimSpace cand) = some r)
    (hs : r.summary = []) :
    parseLLMResponse raw = (r, some (.missingField "summary".toList)) := by
  unfold parseLLMResponse
  rw [hn]
  dsimp only
  rw [hu]
  dsimp only
  rw [if_pos hs]

/-- Claim C6, witness: a response carrying only a description — both required
fields empty or absent — reports the summary as missing. -/
theorem c6_witness :
    parseLLMResponse "\x7b\"description\": \"D\", \"project_name_suggestion\": \"\"\x7d".toList =
      (⟨[], "D".toList, []⟩, some (.missingField "summary".toList)) :=
  c6_summary_checked_first
    "\x7b\"description\": \"D\", \"project_name_suggestion\": \"\"\x7d".toList
    "\x7b\"description\": \"D\", \"project_name_suggestion\": \"\"\x7d".toList
    ⟨[], "D".toList, []⟩ (by decide) (by decide) (by decide)

/-- Claim C10: when `ParseLLMResponse` fails with a missing-required-field
error it returns the fully parsed record alongside the error, whereas a
normalization (JSON-find) failure or an unmarshal failure returns the
zero-valued record. -/
theorem c10_record_alongside_error :
    (∀ (raw : List Char) (r : LLMResponse) (n : List Char),
        parseLLMResponse raw = (r, some (.missingField n)) →
        ∃ cand, normalizeLLM raw = some cand ∧
          jsonUnmarshalLLM (goTrimSpace cand) = some r) ∧
    (∀ (raw : List Char) (r : LLMResponse),
        parseLLMResponse raw = (r, some .jsonFind) → r = zeroLLMResponse) ∧
    (∀ (raw : List Char) (r : LLMResponse),
        parseLLMResponse raw = (r, some .jsonUnmarshal) → r = zeroLLMResponse) := by
  refine ⟨?_, ?_, ?_⟩
  · intro raw r n h
    unfold parseLLMResponse at h
    split at h
    · exact absurd h (by simp)
    · next cand hn =>
      split at h
      · exact absurd h (by simp)
      · next resp hu =>
        refine ⟨cand, hn, ?_⟩
        rw [hu]
        split_ifs at h with h1 h2
        · rw [((Prod.mk.injEq _ _ _ _).mp h).1]
        · rw [((Prod.mk.injEq _ _ _ _).mp h).1]
        · exact absurd ((Prod.mk.injEq _ _ _ _).mp h).2 (by simp)
  · intro raw r h
    unfold parseLLMResponse at h
    split at h
    · simp_all
    · next cand hn =>
      split at h
      · simp_all
      · split_ifs at h <;> simp_all
  · intro raw r h
    unfold parseLLMResponse at h
    split at h
    · simp_all
    · next cand hn =>
      split at h
      · simp_all
      · split_ifs at h <;> simp_all

/-- Claim C10, witness: a record whose summary is empty but whose description
parsed keeps the parsed description alongside the missing-field error. -/
theorem c10_witness :
    ∃ cand,
      normalizeLLM "\x7b\"summary\": \"\", \"description\": \"Kept\"\x7d".toList = some cand ∧
      jsonUnmarshalLLM (goTrimSpace cand) = some ⟨[], "Kept".toList, []⟩ :=
  c10_record_alongside_error.1
    "\x7b\"summary\": \"\", \"description\": \"Kept\"\x7d".toList
    ⟨[], "Kept".toList, []⟩ "summary".toList (by decide)

/-- Claim C8: in tsv rendering, a cell whose path resolves to an absent value
(found = false) or to a null value (a found nil interface) renders as the
empty string. -/
theorem c8_absent_or_null_cell_empty (issue : Issue) (path : List Char)
    (h : getValueByPath issue.toGoValue path = none ∨
      ∃ v, getValueByPath issue.toGoValue path = some v ∧ ifaceIsNil v = true) :
    tsvCell issue path = [] := by
  unfold tsvCell
  rcases h with h | ⟨v, hv, hnil⟩
  · rw [h]
  · rw [hv]
    simp [hnil]

/-- Claim C8, witness: an unresolvable path renders as the empty cell. -/
theorem c8_witness : tsvCell issueOne "nonExistentField".toList = [] :=
  c8_absent_or_null_cell_empty issueOne "nonExistentField".toList (Or.inl rfl)

/-- Claim C7: a struct member whose json tag is `-` is never resolvable —
phase 1 rejects the name match and phase 2 rejects the tag match — so any
segment that only matches excluded members resolves to found = false. -/
theorem c7_excluded_never_resolvable :
    (∀ (fs : List GoField) (part : List Char) (f : GoField),
        structResolve fs part = some f → f.jsonTag ≠ dashTag) ∧
    (∀ (fs : List GoField) (part : List Char) (rest : List (List Char)),
        (∀ f ∈ fs, (eqFold f.name part = true ∨ tagHead f.jsonTag = part) →
          f.jsonTag = dashTag) →
        getValueRecursive (.vstruct fs) (part :: rest) = none) := by
  constructor
  · intro fs part f h
    unfold structResolve at h
    split at h
    · next g hg =>
      obtain rfl : g = f := Option.some.inj h
      unfold fieldByName at hg
      split at hg
      · next f' hfil =>
        split_ifs at hg with h1 h2
        · exact (Option.some.inj hg) ▸ h2
      · exact absurd hg (by simp)
    · next hg =>
      have hp := List.find?_some h
      simp only [Bool.and_eq_true, decide_eq_true_eq] at hp
      exact hp.1.2
  · intro fs part rest hall
    have hname : fieldByName fs part = none := by
      unfold fieldByName
      split
      · next f hfil =>
        have hmem : f ∈ fs.filter (fun f => eqFold f.name part) := by
          rw [hfil]; exact List.mem_singleton.mpr rfl
        have hf := List.mem_filter.mp hmem
        have hdash : f.jsonTag = dashTag := hall f hf.1 (Or.inl hf.2)
        simp [hdash]
      · rfl
    have htag : fieldByTag fs part = none := by
      apply List.find?_eq_none.mpr
      intro x hx hpx
      simp only [Bool.and_eq_true, decide_eq_true_eq] at hpx
      exact hpx.1.2 (hall x hx (Or.inr hpx.1.1))
    simp [getValueRecursive, derefChain, structResolve, hname, htag]

/-- Claim C7, witness: a field named `SkipMe` with json tag `-` — the shape the
repository's own `TestGetValueByPath` uses — is not resolvable by its name. -/
theorem c7_witness :
    getValueRecursive
      (.vstruct [.mk "SkipMe".toList dashTag true (.vstr "secret".toList)])
      ["SkipMe".toList] = none :=
  c7_excluded_never_resolvable.2
    [.mk "SkipMe".toList dashTag true (.vstr "secret".toList)]
    "SkipMe".toList [] (by decide)

/-- A Go map write at a fresh key appends the binding. -/
theorem mapSet_not_mem (m : List (List Char × Option GoValue)) (k : List Char)
    (v : Option GoValue) (h : k ∉ m.map Prod.fst) : mapSet m k v = m ++ [(k, v)] := by
  unfold mapSet
  rw [if_neg]
  intro hany
  rw [List.any_eq_true] at hany
  obtain ⟨e, he, heq⟩ := hany
  exact h (List.mem_map.mpr ⟨e, he, by simpa using heq⟩)

/-- Keys accumulated by the `extractFields` fold: with pairwise-distinct fresh
paths, the bindings appear once each, in request order. -/
theorem extract_aux (g : GoValue) :
    ∀ (fields : List (List Char)) (acc : List (List Char × Option GoValue)),
      fields.Nodup → (∀ p ∈ fields, p ∉ acc.map Prod.fst) →
      (fields.foldl (fun m p => mapSet m p (getValueByPath g p)) acc).map Prod.fst =
        acc.map Prod.fst ++ fields := by
  intro fields
  induction fields with
  | nil => intro acc _ _; simp
  | cons p ps ih =>
    intro acc hnd hfr
    rw [List.foldl_cons, mapSet_not_mem acc p _ (hfr p (List.mem_cons_self p ps))]
    rw [ih (acc ++ [(p, getValueByPath g p)]) (List.nodup_cons.mp hnd).2 ?_]
    · simp
    · intro q hq
      simp only [List.map_append, List.mem_append, List.map_cons, List.map_nil,
        List.mem_singleton, not_or]
      refine ⟨hfr q (List.mem_cons_of_mem p hq), ?_⟩
      intro hqe
      exact (List.nodup_cons.mp hnd).1 (hqe ▸ hq)

/-- Claim C1, counterexample: the projection of `extractFields` is a Go map,
and the JSON encoder emits Go map keys sorted byte-wise, so requesting
`key` before `fields.summary` serializes `fields.summary` first — the
serialized entry order does not follow the caller's requested field order. -/
theorem c1_counterexample :
    goJsonMapKeys (extractFields issueOne ["key".toList, "fields.summary".toList]) =
      ["fields.summary".toList, "key".toList] ∧
    goJsonMapKeys (extractFields issueOne ["key".toList, "fields.summary".toList]) ≠
      ["key".toList, "fields.summary".toList] := by decide

/-- Claim C1, amended: for pairwise-distinct requested paths, every requested
path is present exactly once in the projection, but the serialized entry order
of the JSON encoding is the byte-wise sorted order of the requested path
strings (Go maps are unordered and `encoding/json` sorts map keys; the YAML
encoder likewise sorts map keys rather than preserving caller order). -/
theorem c1_amended (issue : Issue) (fields : List (List Char)) (hnd : fields.Nodup) :
    (extractFields issue fields).map Prod.fst = fields ∧
    goJsonMapKeys (extractFields issue fields) = sortStrings fields := by
  have h := extract_aux issue.toGoValue fields [] hnd (by simp)
  simp only [List.map_nil, List.nil_append] at h
  exact ⟨h, by unfold goJsonMapKeys; exact congrArg sortStrings h⟩

/-- Claim C1, witness: the amended statement at the counterexample's input. -/
theorem c1_witness :
    goJsonMapKeys (extractFields issueOne ["key".toList, "fields.summary".toList]) =
      sortStrings ["key".toList, "fields.summary".toList] :=
  (c1_amended issueOne ["key".toList, "fields.summary".toList] (by decide)).2

/-- Sanitized cell content never contains a tab. -/
theorem not_tab_sanitize (s : List Char) : ('\t' : Char) ∉ sanitizeCell s := by
  unfold sanitizeCell
  intro hmem
  obtain ⟨a, _, hfa⟩ := List.mem_map.mp hmem
  by_cases hc : (a = '\t' || a = '\n' || a = '\r') = true
  · rw [if_pos hc] at hfa
    exact absurd hfa (by decide)
  · rw [if_neg hc] at hfa
    simp only [Bool.or_eq_true, decide_eq_true_eq, not_or] at hc
    exact hc.1.1 hfa

/-- A rendered tsv cell never contains a tab. -/
theorem tsvCell_no_tab (issue : Issue) (p : List Char) :
    ('\t' : Char) ∉ tsvCell issue p := by
  unfold tsvCell
  split
  · split_ifs
    · simp
    · exact not_tab_sanitize _
  · simp

/-- Tab-joining tab-free cells yields one tab-separated cell per input cell. -/
theorem countCells_join :
    ∀ cells : List (List Char), cells ≠ [] →
      (∀ c ∈ cells, ('\t' : Char) ∉ c) →
      countCells (joinTab cells) = cells.length := by
  intro cells
  induction cells with
  | nil => intro hne _; exact absurd rfl hne
  | cons x xs ih =>
    intro _ htab
    cases xs with
    | nil =>
      simp [joinTab, joinSep, countCells,
        List.count_eq_zero.mpr (htab x (List.mem_cons_self x []))]
    | cons y ys =>
      have h1 : joinTab (x :: y :: ys) = x ++ '\t' :: joinTab (y :: ys) := rfl
      have ih' := ih (by simp) (fun c hc => htab c (List.mem_cons_of_mem x hc))
      unfold countCells at ih' ⊢
      rw [h1, List.count_append, List.count_cons_self,
        List.count_eq_zero.mpr (htab x (List.mem_cons_self x _))]
      simp only [List.length_cons] at ih' ⊢
      omega

/-- The tsv field selection is never empty: an empty or unusable flag falls
back to the default four fields. -/
theorem tsvSelectFields_ne_nil (fstr : List Char) : tsvSelectFields fstr ≠ [] := by
  unfold tsvSelectFields
  split_ifs
  · simp [defaultTsvFields]
  · split
    · simp [defaultTsvFields]
    · simp

/-- Claim C9, counterexample: a selected field path may itself contain a tab
(interior tabs survive the comma-split-and-trim parsing), in which case the
header row has more tab-separated cells than every data row — rendering one
issue over the flag value `a\tb` yields a two-cell header and a one-cell row. -/
theorem c9_counterexample :
    (tsvLines [issueOne] "a\tb".toList).map countCells = [2, 1] := by decide

/-- Claim C9, amended: provided no selected field path contains a tab
character, every line the tsv mode emits for a non-empty collection — the
header and each data row — has exactly one tab-separated cell per selected
field path, because cell values are tab-sanitized before joining. -/
theorem c9_amended (issues : List Issue) (fstr : List Char) (hne : issues ≠ [])
    (hfs : ∀ p ∈ tsvSelectFields fstr, ('\t' : Char) ∉ p) :
    ∀ line ∈ tsvLines issues fstr, countCells line = (tsvSelectFields fstr).length := by
  intro line hline
  cases issues with
  | nil => exact absurd rfl hne
  | cons i is =>
    unfold tsvLines at hline
    rcases List.mem_cons.mp hline with h | h
    · subst h
      exact countCells_join _ (tsvSelectFields_ne_nil fstr) hfs
    · obtain ⟨j, _, rfl⟩ := List.mem_map.mp h
      unfold tsvRow
      rw [countCells_join ((tsvSelectFields fstr).map (tsvCell j))
        (by simp [tsvSelectFields_ne_nil fstr]) ?_]
      · simp
      · intro c hc
        obtain ⟨p, _, rfl⟩ := List.mem_map.mp hc
        exact tsvCell_no_tab j p

/-- Claim C9, witness: with the default field set, a data row for the sample
issue has exactly four cells, the number of selected paths. -/
theorem c9_witness :
    countCells (tsvRow issueOne (tsvSelectFields [])) = (tsvSelectFields []).length :=
  c9_amended [issueOne] [] (by simp) (by decide)
    (tsvRow issueOne (tsvSelectFields [])) (by decide)

/-- Claim C3, counterexample: an input that opens a fence and never closes it
does not always fail normalization — when the trimmed input starts with `{`
and ends with `}` the brace fallback still yields a candidate (here the whole
input, broken fence included), and the eventual error is the unmarshal error,
not the JSON-find failure the claim requires. -/
theorem c3_counterexample :
    [btick, btick, btick] <:+: "\x7b \x60\x60\x60 \x7d".toList ∧
    findFence "\x7b \x60\x60\x60 \x7d".toList = none ∧
    normalizeLLM "\x7b \x60\x60\x60 \x7d".toList = some "\x7b \x60\x60\x60 \x7d".toList ∧
    (parseLLMResponse "\x7b \x60\x60\x60 \x7d".toList).2 = some .jsonUnmarshal := by
  decide

/-- Claim C3, amended: an input containing a fence opener but no complete
fenced block (the regex finds nothing) fails outright with the JSON-find
failure, unless the trimmed input both starts with `{` and ends with `}` — in
that case the brace fallback still produces a candidate. -/
theorem c3_amended (raw : List Char)
    (_hopen : [btick, btick, btick] <:+: raw)
    (hfence : findFence raw = none)
    (hfb : ¬((goTrimSpace raw).head? = some lbrace ∧
      (goTrimSpace raw).getLast? = some rbrace)) :
    parseLLMResponse raw = (zeroLLMResponse, some .jsonFind) := by
  unfold parseLLMResponse normalizeLLM
  rw [hfence]
  dsimp only
  rw [if_neg hfb]

/-- Claim C3, witness: the classic truncation — an opening fence with JSON but
no closing fence — fails with the JSON-find error. -/
theorem c3_witness :
    parseLLMResponse "\x60\x60\x60json\n\x7b\"a\": \"1\"".toList =
      (zeroLLMResponse, some .jsonFind) :=
  c3_amended "\x60\x60\x60json\n\x7b\"a\": \"1\"".toList
    (by decide) (by decide) (by decide)

/-! ### Greedy-capture lemmas for the fence matcher -/

/-- The three-backtick fence as a list. -/
def fence3 : List Char := [btick, btick, btick]

/-- Stripping a fence off a fence-prefixed list succeeds. -/
theorem stripFence_fence (l : List Char) : stripFence (fence3 ++ l) = some l := by
  simp [fence3, stripFence]

/-- Stripping a fence off a list that does not start with a backtick fails. -/
theorem stripFence_ne_btick (a : Char) (l : List Char) (h : a ≠ btick) :
    stripFence (a :: l) = none := by
  cases l with
  | nil => rfl
  | cons b l' =>
    cases l' with
    | nil => rfl
    | cons c l'' => simp [stripFence, h]

/-- A member of the dropped-while list is a member of the original list. -/
theorem mem_of_mem_dropWhile {α : Type} (p : α → Bool) (l : List α) (x : α)
    (h : x ∈ l.dropWhile p) : x ∈ l := by
  induction l with
  | nil => simp at h
  | cons a as ih =>
    rw [List.dropWhile_cons] at h
    split_ifs at h with hp
    · exact List.mem_cons_of_mem a (ih h)
    · exact h

/-- Dropping while over an append whose first part satisfies the predicate
throughout continues in the second part. -/
theorem dropWhile_append_all {α : Type} (p : α → Bool) (l1 l2 : List α)
    (h : ∀ a ∈ l1, p a = true) : (l1 ++ l2).dropWhile p = l2.dropWhile p := by
  induction l1 with
  | nil => rfl
  | cons a as ih =>
    rw [List.cons_append, List.dropWhile_cons, if_pos (h a (List.mem_cons_self a as))]
    exact ih fun b hb => h b (List.mem_cons_of_mem a hb)

/-- Dropping while stops at a head that fails the predicate. -/
theorem dropWhile_cons_false {α : Type} (p : α → Bool) (a : α) (l : List α)
    (h : p a = false) : (a :: l).dropWhile p = a :: l := by
  rw [List.dropWhile_cons, if_neg (by simp [h])]

/-- Regex whitespace characters are among five concrete characters. -/
theorem wsRe_elim {c : Char} (h : wsRe c = true) :
    c = ' ' ∨ c = '\t' ∨ c = '\n' ∨ c = '\r' ∨ c = '\x0c' := by
  simpa [wsRe, Bool.or_eq_true, decide_eq_true_eq, or_assoc] using h

/-- Regex whitespace is never a backtick. -/
theorem wsRe_ne_btick {c : Char} (h : wsRe c = true) : c ≠ btick := by
  rcases wsRe_elim h with rfl | rfl | rfl | rfl | rfl <;> decide

/-- Regex whitespace is never a closing brace. -/
theorem wsRe_ne_rbrace {c : Char} (h : wsRe c = true) : c ≠ rbrace := by
  rcases wsRe_elim h with rfl | rfl | rfl | rfl | rfl <;> decide

/-- Regex whitespace is never the letter j or J. -/
theorem wsRe_ne_j {c : Char} (h : wsRe c = true) : c ≠ 'j' ∧ c ≠ 'J' := by
  rcases wsRe_elim h with rfl | rfl | rfl | rfl | rfl <;> exact ⟨by decide, by decide⟩

/-- Regex whitespace is Go trim whitespace. -/
theorem wsRe_goSpace {c : Char} (h : wsRe c = true) : goSpace c = true := by
  rcases wsRe_elim h with rfl | rfl | rfl | rfl | rfl <;> decide

/-- After whitespace, a fence closes: the trailing `\s*\x60{3}` succeeds. -/
theorem closeOk_ws_fence (ws post : List Char) (h : ∀ c ∈ ws, wsRe c = true) :
    closeOk (ws ++ (fence3 ++ post)) = true := by
  unfold closeOk dropWsRe
  rw [dropWhile_append_all wsRe ws _ h]
  simp only [fence3, List.cons_append]
  rw [dropWhile_cons_false wsRe btick _ (by decide)]
  simp [stripFence]

/-- A text without backticks can never close a fence. -/
theorem closeOk_no_btick (t : List Char) (h : ∀ c ∈ t, c ≠ btick) :
    closeOk t = false := by
  unfold closeOk dropWsRe
  cases hd : t.dropWhile wsRe with
  | nil => rfl
  | cons a rest =>
    have ha : a ∈ t := mem_of_mem_dropWhile wsRe t a (hd ▸ List.mem_cons_self a rest)
    rw [stripFence_ne_btick a rest (h a ha)]
    rfl

/-- A text without backticks has no greedy capture end. -/
theorem lastClose_no_btick (l : List Char) (h : ∀ c ∈ l, c ≠ btick) :
    lastClose l = none := by
  induction l with
  | nil => rfl
  | cons c rest ih =>
    unfold lastClose
    rw [ih fun a ha => h a (List.mem_cons_of_mem c ha)]
    rw [if_neg]
    intro hc
    have := closeOk_no_btick rest fun a ha => h a (List.mem_cons_of_mem c ha)
    rw [this] at hc
    exact Bool.false_ne_true hc.2

/-- The greedy end in an appended list: a capture end in the right part wins
(it is further right than anything in the left part). -/
theorem lastClose_append_some (xs ys : List Char) (n : Nat)
    (h : lastClose ys = some n) : lastClose (xs ++ ys) = some (xs.length + n) := by
  induction xs with
  | nil => simpa using h
  | cons a as ih =>
    rw [List.cons_append]
    unfold lastClose
    rw [ih]
    simp [Nat.succ_add]

/-- No capture end appears in an append of a brace-free left part onto a right
part without capture ends. -/
theorem lastClose_append_none (xs ys : List Char)
    (hx : ∀ c ∈ xs, c ≠ rbrace) (hy : lastClose ys = none) :
    lastClose (xs ++ ys) = none := by
  induction xs with
  | nil => simpa using hy
  | cons a as ih =>
    rw [List.cons_append]
    unfold lastClose
    rw [ih fun c hc => hx c (List.mem_cons_of_mem a hc)]
    rw [if_neg]
    intro hc
    exact hx a (List.mem_cons_self a as) hc.1

/-- A closing brace directly before a valid fence close is a capture end. -/
theorem lastClose_cons_rbrace (tail : List Char)
    (h1 : lastClose tail = none) (h2 : closeOk tail = true) :
    lastClose (rbrace :: tail) = some 0 := by
  unfold lastClose
  rw [h1, if_pos ⟨rfl, h2⟩]

/-- The greedy capture end of `front ++ \x7d :: tail` when the tail closes the
fence and offers no later end: the brace right after `front`. -/
theorem lastClose_structured (front tail : List Char)
    (h1 : lastClose tail = none) (h2 : closeOk tail = true) :
    lastClose (front ++ (rbrace :: tail)) = some front.length := by
  rw [lastClose_append_some front _ 0 (lastClose_cons_rbrace tail h1 h2)]
  simp

/-- Taking one element past a left part of an append. -/
theorem take_length_succ_append {α : Type} (l : List α) (a : α) (r : List α) :
    (l ++ a :: r).take (l.length + 1) = l ++ [a] := by
  induction l with
  | nil => rfl
  | cons x xs ih => simpa using ih

/-- Consuming the case-insensitive json tag. -/
theorem stripTag_json (a b c d : Char) (rest : List Char) (h : jsonCi a b c d = true) :
    stripTag (a :: b :: c :: d :: rest) = rest := by
  simp [stripTag, h]

/-- The tag matcher leaves a list alone when its head is not a j. -/
theorem stripTag_head_not_j (a : Char) (l : List Char) (h1 : a ≠ 'j') (h2 : a ≠ 'J') :
    stripTag (a :: l) = a :: l := by
  rcases l with _ | ⟨b, _ | ⟨c, _ | ⟨d, rest⟩⟩⟩
  · rfl
  · rfl
  · rfl
  · have : jsonCi a b c d = false := by
      unfold jsonCi
      simp [h1, h2]
    simp [stripTag, this]

/-- Shape of an acceptable fence language tag: absent, or a four-letter
case-insensitive `json`. -/
def TagOk (tag : List Char) : Prop :=
  tag = [] ∨ ∃ a b c d, tag = [a, b, c, d] ∧ jsonCi a b c d = true

/-- Computation of a fence-pattern attempt at the start of a well-shaped text:
fence, optional tag, whitespace, then an opening brace; the attempt reduces to
the greedy capture over the brace's body. -/
theorem matchAt_fence_tag (tag ws body : List Char) (htag : TagOk tag)
    (hws : ∀ c ∈ ws, wsRe c = true) :
    matchAt (fence3 ++ (tag ++ (ws ++ (lbrace :: body)))) =
      (lastClose body).map (fun n => lbrace :: body.take (n + 1)) := by
  unfold matchAt
  rw [stripFence_fence]
  have hdrop : dropWsRe (ws ++ (lbrace :: body)) = lbrace :: body := by
    unfold dropWsRe
    rw [dropWhile_append_all wsRe ws _ hws,
      dropWhile_cons_false wsRe lbrace _ (by decide)]
  have hstrip : stripTag (tag ++ (ws ++ (lbrace :: body))) = ws ++ (lbrace :: body) := by
    rcases htag with rfl | ⟨a, b, c, d, rfl, hci⟩
    · rw [List.nil_append]
      cases ws with
      | nil =>
        rw [List.nil_append]
        exact stripTag_head_not_j lbrace body (by decide) (by decide)
      | cons w ws' =>
        rw [List.cons_append]
        exact stripTag_head_not_j w _
          (wsRe_ne_j (hws w (List.mem_cons_self w ws'))).1
          (wsRe_ne_j (hws w (List.mem_cons_self w ws'))).2
    · exact stripTag_json a b c d _ hci
  dsimp only
  rw [hstrip, hdrop]
  simp

/-- Unfolding equation of the scan at a non-empty list. -/
theorem findFence_cons (a : Char) (l : List Char) :
    findFence (a :: l) =
      match matchAt (a :: l) with
      | some cap => some cap
      | none => findFence l := rfl

/-- The scan skips a backtick-free prefix: no fence attempt can start there. -/
theorem findFence_append_no_btick (pre rest : List Char) (h : ∀ c ∈ pre, c ≠ btick) :
    findFence (pre ++ rest) = findFence rest := by
  induction pre with
  | nil => rfl
  | cons a as ih =>
    have hm : matchAt (a :: (as ++ rest)) = none := by
      unfold matchAt
      rw [stripFence_ne_btick a _ (h a (List.mem_cons_self a as))]
    rw [List.cons_append, findFence_cons, hm]
    exact ih fun c hc => h c (List.mem_cons_of_mem a hc)

/-- The scan returns the capture of a successful attempt at a fence start. -/
theorem findFence_fence (tag ws body : List Char) (htag : TagOk tag)
    (hws : ∀ c ∈ ws, wsRe c = true) (n : Nat) (hn : lastClose body = some n) :
    findFence (fence3 ++ (tag ++ (ws ++ (lbrace :: body)))) =
      some (lbrace :: body.take (n + 1)) := by
  have hm := matchAt_fence_tag tag ws body htag hws
  rw [hn] at hm
  simp only [fence3, List.cons_append, List.nil_append] at hm ⊢
  rw [findFence_cons, hm]
  rfl

/-- Trimming a whitespace-wrapped brace-delimited blob leaves the blob. -/
theorem trim_wrap (ws1 mid ws2 : List Char)
    (h1 : ∀ c ∈ ws1, goSpace c = true) (h2 : ∀ c ∈ ws2, goSpace c = true) :
    goTrimSpace (ws1 ++ (lbrace :: (mid ++ (rbrace :: ws2)))) =
      lbrace :: (mid ++ [rbrace]) := by
  unfold goTrimSpace
  rw [dropWhile_append_all goSpace ws1 _ h1,
    dropWhile_cons_false goSpace lbrace _ (by decide)]
  have hrev : (lbrace :: (mid ++ (rbrace :: ws2))).reverse =
      ws2.reverse ++ (rbrace :: (mid.reverse ++ [lbrace])) := by
    simp [List.reverse_cons, List.reverse_append]
  rw [hrev,
    dropWhile_append_all goSpace ws2.reverse _
      (fun c hc => h2 c (List.mem_reverse.mp hc)),
    dropWhile_cons_false goSpace rbrace _ (by decide)]
  simp

/-- Members of the fence marker are backticks, hence not closing braces. -/
theorem fence3_ne_rbrace : ∀ c ∈ fence3, c ≠ rbrace := by
  intro c hc
  simp only [fence3, List.mem_cons, List.not_mem_nil, or_false] at hc
  rcases hc with rfl | rfl | rfl <;> decide

/-- The closing arrangement `ws ++ fence ++ post`, with backtick-free trailing
text, admits no capture end of its own yet closes the fence. -/
theorem tail_none_close (w post : List Char) (hw : ∀ c ∈ w, wsRe c = true)
    (hpost : ∀ c ∈ post, c ≠ btick) :
    lastClose (w ++ (fence3 ++ post)) = none ∧
      closeOk (w ++ (fence3 ++ post)) = true := by
  refine ⟨?_, closeOk_ws_fence w post hw⟩
  apply lastClose_append_none _ _ (fun c hc => wsRe_ne_rbrace (hw c hc))
  exact lastClose_append_none _ _ fence3_ne_rbrace (lastClose_no_btick post hpost)

/-- Claim C5, amended: for a text consisting of a backtick-free preamble, one
fenced block whose interior is a whitespace-wrapped brace-delimited blob with
no interior backticks, and a backtick-free trailer, the final candidate is
exactly the trimmed interior of the fence.  (The counterexample shows why
stray fence markers after the block must be excluded: the greedy capture would
extend to them.) -/
theorem c5_amended (pre tag ws1 mid ws2 post : List Char)
    (hpre : ∀ c ∈ pre, c ≠ btick) (htag : TagOk tag)
    (hw1 : ∀ c ∈ ws1, wsRe c = true) (_hmid : ∀ c ∈ mid, c ≠ btick)
    (hw2 : ∀ c ∈ ws2, wsRe c = true) (hpost : ∀ c ∈ post, c ≠ btick) :
    finalCandidate (pre ++ (fence3 ++ (tag ++ (ws1 ++ (lbrace ::
        (mid ++ (rbrace :: (ws2 ++ (fence3 ++ post))))))))) =
      some (goTrimSpace (ws1 ++ (lbrace :: (mid ++ (rbrace :: ws2))))) := by
  obtain ⟨htn, htc⟩ := tail_none_close ws2 post hw2 hpost
  have hbody : lastClose (mid ++ (rbrace :: (ws2 ++ (fence3 ++ post)))) =
      some mid.length := lastClose_structured mid _ htn htc
  unfold finalCandidate normalizeLLM
  rw [findFence_append_no_btick pre _ hpre,
    findFence_fence tag ws1 _ htag hw1 mid.length hbody]
  dsimp only [Option.map]
  rw [take_length_succ_append mid rbrace _]
  rw [trim_wrap ws1 mid ws2 (fun c hc => wsRe_goSpace (hw1 c hc))
    (fun c hc => wsRe_goSpace (hw2 c hc))]
  have h0 := trim_wrap [] mid [] (by simp) (by simp)
  simp only [List.nil_append] at h0
  rw [h0]

/-- General greedy-capture computation: at a fence start, the candidate runs
from the opening brace to the last closing brace before a fence close, however
many fence markers and braces the middle (`front`) contains. -/
theorem findFence_greedy (pre tag ws front tail : List Char)
    (hpre : ∀ c ∈ pre, c ≠ btick) (htag : TagOk tag)
    (hws : ∀ c ∈ ws, wsRe c = true)
    (htn : lastClose tail = none) (htc : closeOk tail = true) :
    finalCandidate (pre ++ (fence3 ++ (tag ++ (ws ++ (lbrace ::
        (front ++ (rbrace :: tail))))))) = some (lbrace :: (front ++ [rbrace])) := by
  have hbody : lastClose (front ++ (rbrace :: tail)) = some front.length :=
    lastClose_structured front tail htn htc
  unfold finalCandidate normalizeLLM
  rw [findFence_append_no_btick pre _ hpre,
    findFence_fence tag ws _ htag hws front.length hbody]
  dsimp only [Option.map]
  rw [take_length_succ_append front rbrace tail]
  have h0 := trim_wrap [] front [] (by simp) (by simp)
  simp only [List.nil_append] at h0
  rw [h0]

/-- Claim C2, amended: with two fenced blocks in the text, the candidate does
start at the first block's opening brace, but the greedy capture extends to
the last closing brace that precedes a fence marker — so the candidate spans
the first block's body, its closing fence, the separating text, the second
block's opening fence and tag, and the second block's body.  Content of the
later fenced block therefore appears in the candidate passed to parsing. -/
theorem c2_amended
    (pre t1 w1 m1 w2 sep t2 w3 m2 w4 post : List Char)
    (hpre : ∀ c ∈ pre, c ≠ btick) (ht1 : TagOk t1)
    (hw1 : ∀ c ∈ w1, wsRe c = true) (_hm1 : ∀ c ∈ m1, c ≠ btick)
    (_hw2 : ∀ c ∈ w2, wsRe c = true) (_hsep : ∀ c ∈ sep, c ≠ btick)
    (_ht2 : TagOk t2) (_hw3 : ∀ c ∈ w3, wsRe c = true)
    (_hm2 : ∀ c ∈ m2, c ≠ btick) (hw4 : ∀ c ∈ w4, wsRe c = true)
    (hpost : ∀ c ∈ post, c ≠ btick) :
    finalCandidate (pre ++ (fence3 ++ (t1 ++ (w1 ++ (lbrace ::
        (m1 ++ (rbrace :: (w2 ++ (fence3 ++ (sep ++ (fence3 ++ (t2 ++ (w3 ++ (lbrace ::
          (m2 ++ (rbrace :: (w4 ++ (fence3 ++ post)))))))))))))))))) =
      some (lbrace :: (m1 ++ (rbrace :: (w2 ++ (fence3 ++ (sep ++ (fence3 ++ (t2 ++
        (w3 ++ (lbrace :: (m2 ++ [rbrace]))))))))))) := by
  obtain ⟨htn, htc⟩ := tail_none_close w4 post hw4 hpost
  have h := findFence_greedy pre t1 w1
    (m1 ++ (rbrace :: (w2 ++ (fence3 ++ (sep ++ (fence3 ++ (t2 ++ (w3 ++
      (lbrace :: m2)))))))))
    (w4 ++ (fence3 ++ post)) hpre ht1 hw1 htn htc
  rw [show (m1 ++ (rbrace :: (w2 ++ (fence3 ++ (sep ++ (fence3 ++ (t2 ++ (w3 ++
        (lbrace :: m2))))))))) ++
      (rbrace :: (w4 ++ (fence3 ++ post))) =
      m1 ++ (rbrace :: (w2 ++ (fence3 ++ (sep ++ (fence3 ++ (t2 ++ (w3 ++ (lbrace ::
        (m2 ++ (rbrace :: (w4 ++ (fence3 ++ post)))))))))))) from by
    simp [List.append_assoc]] at h
  rw [h]
  simp [List.append_assoc]

/-- Claim C2, counterexample: with two fenced JSON blocks, the candidate passed
to parsing contains the second block's content (`"b": "2"`), because the
greedy capture runs from the first block's opening brace to the last closing
brace before a fence marker — the claim that later-block content never appears
in the candidate is false. -/
theorem c2_counterexample :
    finalCandidate
        "\x60\x60\x60json\n\x7b\"a\": \"1\"\x7d\n\x60\x60\x60\nmid\n\x60\x60\x60json\n\x7b\"b\": \"2\"\x7d\n\x60\x60\x60".toList =
      some "\x7b\"a\": \"1\"\x7d\n\x60\x60\x60\nmid\n\x60\x60\x60json\n\x7b\"b\": \"2\"\x7d".toList ∧
    "\"b\": \"2\"".toList <:+:
      "\x7b\"a\": \"1\"\x7d\n\x60\x60\x60\nmid\n\x60\x60\x60json\n\x7b\"b\": \"2\"\x7d".toList := by
  decide

/-- Claim C2, witness: the amended two-block statement at concrete pieces. -/
theorem c2_witness :
    finalCandidate ("A\n".toList ++ (fence3 ++ ("json".toList ++ ("\n".toList ++ (lbrace :: ("\"a\": \"1\"".toList ++ (rbrace :: ("\n".toList ++ (fence3 ++ ("\nmid\n".toList ++ (fence3 ++ ("JSON".toList ++ ("\n".toList ++ (lbrace :: ("\"b\": \"2\"".toList ++ (rbrace :: ("\n".toList ++ (fence3 ++ ("\nend".toList))))))))))))))))))) =
      some (lbrace :: ("\"a\": \"1\"".toList ++ (rbrace :: ("\n".toList ++ (fence3 ++ ("\nmid\n".toList ++ (fence3 ++ ("JSON".toList ++ ("\n".toList ++ (lbrace :: ("\"b\": \"2\"".toList ++ ([rbrace])))))))))))) :=
  c2_amended "A\n".toList "json".toList "\n".toList "\"a\": \"1\"".toList "\n".toList
    "\nmid\n".toList "JSON".toList "\n".toList "\"b\": \"2\"".toList "\n".toList
    "\nend".toList
    (by decide) (Or.inr ⟨'j', 's', 'o', 'n', by decide, by decide⟩) (by decide)
    (by decide) (by decide) (by decide)
    (Or.inr ⟨'J', 'S', 'O', 'N', by decide, by decide⟩) (by decide) (by decide)
    (by decide) (by decide)

/-- Claim C5, counterexample: a text with exactly one well-formed fenced JSON
block but a stray dangling fence opener afterwards (preceded by a closing
brace) makes the greedy capture overshoot: the candidate is not the trimmed
interior of the block. -/
theorem c5_counterexample :
    finalCandidate
        "\x60\x60\x60json\n\x7b\"a\": \"1\"\x7d\n\x60\x60\x60\nx \x7d\n\x60\x60\x60".toList =
      some "\x7b\"a\": \"1\"\x7d\n\x60\x60\x60\nx \x7d".toList ∧
    finalCandidate
        "\x60\x60\x60json\n\x7b\"a\": \"1\"\x7d\n\x60\x60\x60\nx \x7d\n\x60\x60\x60".toList ≠
      some (goTrimSpace "\n\x7b\"a\": \"1\"\x7d\n".toList) := by
  decide

/-- Claim C5, witness: the amended single-block statement at concrete pieces —
prose before and after, a json tag, and inner whitespace. -/
theorem c5_witness :
    finalCandidate ("Here:\n".toList ++ (fence3 ++ ("json".toList ++ ("\n".toList ++
        (lbrace :: ("\"summary\": \"S\"".toList ++ (rbrace :: ("\n".toList ++
          (fence3 ++ "\nThanks".toList))))))))) =
      some (goTrimSpace ("\n".toList ++ (lbrace ::
        ("\"summary\": \"S\"".toList ++ (rbrace :: "\n".toList))))) :=
  c5_amended "Here:\n".toList "json".toList "\n".toList "\"summary\": \"S\"".toList
    "\n".toList "\nThanks".toList
    (by decide) (Or.inr ⟨'j', 's', 'o', 'n', by decide, by decide⟩) (by decide)
    (by decide) (by decide) (by decide)

/-! ### Consistency examples mirroring the repository's own test table -/

example :
    parseLLMResponse
        "Here:\n\x60\x60\x60json\n\x7b\"summary\": \"Fix bug\", \"project_name_suggestion\": \"Web\"\x7d\n\x60\x60\x60\nThanks".toList =
      (⟨"Fix bug".toList, [], "Web".toList⟩, none) := by decide

example :
    finalCandidate
        "\x60\x60\x60\x60json\n\x7b\"a\": \"1\"\x7d\n\x60\x60\x60\x60".toList =
      some "\x7b\"a\": \"1\"\x7d".toList := by decide

example :
    finalCandidate
        "\x60\x60\x60JSON\n \x7b\"a\": \"1\"\x7d \n\x60\x60\x60".toList =
      some "\x7b\"a\": \"1\"\x7d".toList := by decide

example : parseLLMResponse "".toList = (zeroLLMResponse, some .jsonFind) := by decide

example :
    parseLLMResponse "Just some random text without any JSON.".toList =
      (zeroLLMResponse, some .jsonFind) := by decide
